import Mathlib

/-!
Verification of the Asset Preview Pipeline of the total-asset-browser
repository: a shallow embedding of the server-side thumbnail / texture
code (Express server) and of the client-side 3D model load queue,
together with theorems settling the specification claims.

Conventions of the embedding:
* filesystem and image-library (sharp) calls are modelled by an explicit
  environment of functions; content-dependent operations additionally
  receive the file's modification time, which stands in for the content
  version;
* JavaScript Map objects are modelled as association lists in insertion
  order (a Map iterates in insertion order, and Map.set of a fresh key
  appends); Map keys are unique, so deletion by key removes one entry;
* JavaScript Array.prototype.sort is a stable sort (ES2019), modelled by
  a stable insertion sort;
* byte buffers are opaque tokens (Nat).
-/

/-! ## Paths and file classification (server.js)

String utilities are implemented by structural recursion over the
character list of a string, so that every definition evaluates inside
the kernel. -/

/-- Opaque byte buffers. -/
abbrev Bytes := Nat

/-- Split a character list at a separator; a list of n separators
yields n + 1 groups, as String.prototype.split does. -/
def splitChar (sep : Char) : List Char → List (List Char)
  | [] => [[]]
  | c :: cs =>
    let r := splitChar sep cs
    if c = sep then [] :: r
    else
      match r with
      | [] => [[c]]
      | g :: gs => (c :: g) :: gs

/-- Join groups with a separator, inverse of splitChar. -/
def joinChar (sep : Char) : List (List Char) → List Char
  | [] => []
  | [g] => g
  | g :: gs => g ++ sep :: joinChar sep gs

/-- Lowercase a string (String.prototype.toLowerCase on ASCII). -/
def lowerStr (s : String) : String :=
  (s.data.map Char.toLower).asString

/-- The last path component, as in the node path module. -/
def pathBasename (p : String) : String :=
  ((splitChar '/' p.data).getLastD []).asString

/-- node path.extname: the suffix of the basename starting at its last
dot, empty when the basename has no dot or only a leading dot. -/
def extname (p : String) : String :=
  let parts := splitChar '.' (pathBasename p).data
  match parts with
  | [] => ""
  | [_] => ""
  | [[], _] => ""
  | _ => "." ++ (parts.getLastD []).asString

/-- node path.dirname, restricted to the simple relative/absolute forms
used here (no trailing separators, no normalization). -/
def dirname (p : String) : String :=
  let parts := splitChar '/' p.data
  if parts.length ≤ 1 then "." else (joinChar '/' parts.dropLast).asString

/-- node path.basename(p, path.extname(p)): the basename with its
extension removed. -/
def basenameNoExt (p : String) : String :=
  let base := (pathBasename p).data
  (base.take (base.length - (extname p).data.length)).asString

/-- node path.join for one extra component. -/
def joinP (a b : String) : String := a ++ "/" ++ b

/-- The SUPPORTED_EXTENSIONS table of server.js, in object insertion
order. -/
def SUPPORTED_EXTENSIONS : List (String × List String) :=
  [ ("images", [".jpg", ".jpeg", ".png", ".gif", ".bmp", ".webp", ".svg"]),
    ("models", [".glb", ".gltf", ".fbx", ".obj", ".dae", ".3ds"]),
    ("audio", [".mp3", ".wav", ".ogg", ".m4a", ".flac", ".aac"]),
    ("video", [".mp4", ".webm", ".mov", ".avi", ".mkv"]),
    ("documents", [".txt", ".json", ".xml", ".md", ".url"]) ]

/-- server.js getFileType: first table row whose extension list contains
the lowercased extension, otherwise "unknown". -/
def getFileType (filePath : String) : String :=
  let ext := lowerStr (extname filePath)
  match SUPPORTED_EXTENSIONS.find? (fun te => te.2.contains ext) with
  | some te => te.1
  | none => "unknown"

/-! ## Injectivity of the decimal rendering of numbers

The thumbnail cache key interpolates numbers into a string; reasoning
about hits and misses therefore needs injectivity of Nat.repr. -/

/-- Numeric value of a decimal digit character. -/
def digitVal (c : Char) : Nat := c.toNat - '0'.toNat

/-- Value of a most-significant-first decimal digit string. -/
def valOfDigits (l : List Char) : Nat :=
  l.foldl (fun a c => 10 * a + digitVal c) 0

/-! ## Stable sorting

JavaScript Array.prototype.sort is stable; it is modelled by a stable
insertion sort. keep y x means: y, already placed, stays in front of the
incoming element x (comparator(y, x) ≤ 0). -/

def insertStable (keep : α → α → Bool) (x : α) : List α → List α
  | [] => [x]
  | y :: ys => if keep y x then y :: insertStable keep x ys else x :: y :: ys

def stableSort (keep : α → α → Bool) (l : List α) : List α :=
  l.foldl (fun acc x => insertStable keep x acc) []

/-! ## Texture scoring and the colormap finder (server.js findColormap) -/

/-- Is pat a prefix of the second list? -/
def isPrefixChars : List Char → List Char → Bool
  | [], _ => true
  | _ :: _, [] => false
  | a :: as, b :: bs => a = b && isPrefixChars as bs

/-- Does the contiguous pattern occur anywhere in the list? -/
def containsChars (pat : List Char) : List Char → Bool
  | [] => pat.isEmpty
  | c :: rest => isPrefixChars pat (c :: rest) || containsChars pat rest

/-- JS String.prototype.includes. -/
def containsStr (s pat : String) : Bool :=
  containsChars pat.data s.data

/-- Image extensions accepted by the scan phase of findColormap. -/
def imageExtsScan : List String := [".png", ".jpg", ".jpeg", ".tga", ".bmp"]

/-- The per-file heuristic score of findColormap (server.js lines
154-191), translated term by term. -/
def scoreFile (modelName : String) (file : String) : Int :=
  let fileName := lowerStr file
  let fileNameNoExt := lowerStr (basenameNoExt file)
  let modelNameLower := lowerStr modelName
  let ext := lowerStr (extname file)
  (if fileNameNoExt = modelNameLower then (100 : Int) else 0)
  + (if containsStr fileName modelNameLower then 50 else 0)
  + (if containsStr fileName ("diffuse") then 30 else 0)
  + (if containsStr fileName ("albedo") then 25 else 0)
  + (if containsStr fileName ("color") then 20 else 0)
  + (if containsStr fileName ("texture") then 15 else 0)
  + (if containsStr fileName ("material") then 10 else 0)
  + (if containsStr fileName ("map") then 8 else 0)
  + (if containsStr fileName ("base") then 5 else 0)
  + (if ext = ".png" then 3 else 0)
  + (if ext = ".jpg" ∨ ext = ".jpeg" then 2 else 0)
  - (if containsStr fileName ("normal") then 20 else 0)
  - (if containsStr fileName ("bump") then 20 else 0)
  - (if containsStr fileName ("height") then 15 else 0)
  - (if containsStr fileName ("rough") then 15 else 0)
  - (if containsStr fileName ("metal") then 15 else 0)
  - (if containsStr fileName ("spec") then 10 else 0)
  - (if containsStr fileName ("ao") then 10 else 0)
  - (if containsStr fileName ("occlusion") then 10 else 0)

/-- Comparator (a, b) => b.score - a.score as a stable-sort keep
predicate: an already placed entry stays in front of the incoming one
when its score is at least as large. -/
def keepScore : (String × Int) → (String × Int) → Bool :=
  fun a b => decide (b.2 ≤ a.2)

/-- The scan phase of findColormap for one directory listing: filter the
image files, score them, sort by descending score (stable), and return
the front entry - both the positive-score branch and the last-resort
fallback branch of the source return imageFiles[0]. -/
def scanForTexture (modelName : String) (files : List String) : Option String :=
  let imageFiles := stableSort keepScore
    ((files.filter (fun f => imageExtsScan.contains (lowerStr (extname f)))).map
      (fun f => (f, scoreFile modelName f)))
  match imageFiles with
  | [] => none
  | best :: _ => if best.2 > 0 then some best.1 else some best.1

/-- The candidate texture file names of findColormap (server.js lines
76-125), in order, duplicates preserved. -/
def textureNames (modelName : String) : List String :=
  [ modelName ++ ".png", modelName ++ ".jpg", modelName ++ ".jpeg",
    modelName ++ ".tga", modelName ++ ".bmp",
    modelName ++ "_diffuse.png", modelName ++ "_diffuse.jpg",
    modelName ++ "_Diffuse.png", modelName ++ "_Diffuse.jpg",
    modelName ++ "_albedo.png", modelName ++ "_albedo.jpg",
    modelName ++ "_Albedo.png", modelName ++ "_Albedo.jpg",
    modelName ++ "_color.png", modelName ++ "_color.jpg",
    modelName ++ "_Color.png", modelName ++ "_Color.jpg",
    modelName ++ "_colormap.png", modelName ++ "_colormap.jpg",
    modelName ++ "_texture.png", modelName ++ "_texture.jpg",
    modelName ++ "_map.png", modelName ++ "_map.jpg",
    "diffuse.png", "diffuse.jpg", "Diffuse.png", "Diffuse.jpg",
    "albedo.png", "albedo.jpg", "Albedo.png", "Albedo.jpg",
    "color.png", "color.jpg", "Color.png", "Color.jpg",
    "colormap.png", "colormap.jpg", "ColorMap.png", "ColorMap.jpg",
    "texture.png", "texture.jpg", "Texture.png", "Texture.jpg",
    "base.png", "base.jpg", "Base.png", "Base.jpg",
    "material.png", "material.jpg", "Material.png", "Material.jpg",
    "map.png", "map.jpg", "Map.png", "Map.jpg",
    modelName ++ ".tga",
    "diffuse.tga", "Diffuse.tga", "albedo.tga", "Albedo.tga",
    "color.tga", "Color.tga", "texture.tga", "Texture.tga",
    modelName ++ ".bmp",
    "diffuse.bmp", "Diffuse.bmp", "texture.bmp", "Texture.bmp" ]

/-- The candidate directories of findColormap (server.js lines 52-73),
in order, duplicates preserved. -/
def searchLocations (modelDir : String) : List String :=
  let parent := dirname modelDir
  [ modelDir,
    joinP modelDir ("Textures"), joinP modelDir ("textures"),
    joinP modelDir ("Materials"), joinP modelDir ("materials"),
    joinP modelDir ("Maps"), joinP modelDir ("maps"),
    joinP modelDir ("Images"), joinP modelDir ("images"),
    parent,
    joinP parent ("Textures"), joinP parent ("textures"),
    joinP parent ("Materials"), joinP parent ("materials"),
    joinP parent ("Textures"), joinP parent ("Materials") ]

/-- The external collaborators of the preview pipeline: filesystem reads
and image-library (sharp) operations. Content-dependent operations also
receive the file's modification time as a stand-in for its content
version. A fallible result models a thrown exception. -/
structure Env where
  fsExists : String → Bool
  mtime : String → Nat
  readdir : String → Except Unit (List String)
  readFile : String → Nat → Bytes
  resizeImage : String → Nat → Nat → Except Unit Bytes
  resizeSvg : String → Nat → Nat → Except Unit Bytes
  compositeTexture : String → Nat → Except Unit Bytes
  makeIcon : String → Nat → Except Unit Bytes
  makeTypeIcon : String → Nat → Except Unit Bytes
  makeAssetIcon : String → Nat → Except Unit Bytes

/-- The directory loop of findColormap: skip locations that do not
exist, try the exact candidate names, then fall back to the scored
directory scan; a readdir error skips the location. -/
def findColormapGo (env : Env) (names : List String) (modelName : String) :
    List String → Option String
  | [] => none
  | loc :: rest =>
    if env.fsExists loc = false then findColormapGo env names modelName rest
    else
      match names.find? (fun n => env.fsExists (joinP loc n)) with
      | some n => some (joinP loc n)
      | none =>
        match env.readdir loc with
        | .error _ => findColormapGo env names modelName rest
        | .ok files =>
          match scanForTexture modelName files with
          | some f => some (joinP loc f)
          | none => findColormapGo env names modelName rest

/-- server.js findColormap. -/
def findColormap (env : Env) (modelPath : String) : Option String :=
  let modelDir := dirname modelPath
  let modelName := basenameNoExt modelPath
  findColormapGo env (textureNames modelName) modelName
    (searchLocations modelDir)

/-- server.js generate3DModelThumbnail: composite the resolved colormap
texture with the 3D badge; on any texture failure (or no texture), fall
back to the generated icon. The outer catch retries the icon, which is
deterministic here, so a failing icon fails the call. -/
def generate3DModelThumbnail (env : Env) (modelPath : String) (size : Nat) :
    Except Unit Bytes :=
  match findColormap env modelPath with
  | some cp =>
    match env.compositeTexture cp size with
    | .ok b => .ok b
    | .error _ => env.makeIcon modelPath size
  | none => env.makeIcon modelPath size

/-! ## The thumbnail cache and the two endpoints that use it -/

abbrev Cache := List (String × Bytes)

/-- Map.get/Map.has. -/
def cacheLookup (c : Cache) (k : String) : Option Bytes :=
  match c.find? (fun e => e.1 = k) with
  | some e => some e.2
  | none => none

/-- Map.set: update in place when the key exists, else append. -/
def mapSet (c : Cache) (k : String) (v : Bytes) : Cache :=
  if c.any (fun e => e.1 = k) then
    c.map (fun e => if e.1 = k then (k, v) else e)
  else c ++ [(k, v)]

/-- Map.delete: keys are unique in a Map, so the first match goes. -/
def mapDeleteKey (c : Cache) (k : String) : Cache :=
  c.eraseP (fun e => e.1 = k)

/-- The cleanup block of the thumbnail endpoint (server.js lines
632-637): when more than 100 entries are cached, delete the first
(size - 100) keys in insertion order. -/
def evictOld (c : Cache) : Cache :=
  if c.length > 100 then
    ((c.map Prod.fst).take (c.length - 100)).foldl
      (fun acc k => mapDeleteKey acc k) c
  else c

/-- The thumbnail endpoint's cache key (server.js line 577). -/
def thumbKey (filePath : String) (size mtime : Nat) : String :=
  filePath ++ "-" ++ Nat.repr size ++ "-" ++ Nat.repr mtime

/-- The folder-preview endpoint's cache key (server.js line 657): no
modification time. -/
def folderPreviewKey (folderPath : String) (size : Nat) : String :=
  "folder-preview-" ++ folderPath ++ "-" ++ Nat.repr size

/-- An HTTP response: an image payload with a content type, or an error
status. -/
inductive Resp
  | ok (contentType : String) (body : Bytes)
  | err (status : Nat)
deriving DecidableEq

/-- The /api/thumbnail endpoint (server.js lines 566-645): existence
check, mtime-keyed cache probe, generation by file type (SVG passes the
original bytes through and is not cached), insertion and eviction; a
thrown generation error becomes a 500 response without touching the
cache. -/
def thumbnailEndpoint (env : Env) (filePath : String) (size : Nat)
    (cache : Cache) : Resp × Cache :=
  if env.fsExists filePath = false then (.err 404, cache)
  else
    let m := env.mtime filePath
    let cacheKey := thumbKey filePath size m
    match cacheLookup cache cacheKey with
    | some b => (.ok ("image/jpeg") b, cache)
    | none =>
      let fileType := getFileType filePath
      if fileType = "images" then
        if lowerStr (extname filePath) = ".svg" then
          (.ok ("image/svg+xml") (env.readFile filePath m), cache)
        else
          match env.resizeImage filePath m size with
          | .error _ => (.err 500, cache)
          | .ok b => (.ok ("image/jpeg") b, evictOld (mapSet cache cacheKey b))
      else if fileType = "models" then
        match generate3DModelThumbnail env filePath size with
        | .error _ => (.err 500, cache)
        | .ok b => (.ok ("image/jpeg") b, evictOld (mapSet cache cacheKey b))
      else
        match env.makeTypeIcon fileType size with
        | .error _ => (.err 500, cache)
        | .ok b => (.ok ("image/jpeg") b, evictOld (mapSet cache cacheKey b))

/-! ## The first-asset finder (server.js findFirstAsset) -/

/-- A directory tree: the filesystem as seen through readdirSync and
statSync, with no read errors. -/
inductive FTree
  | file (name : String)
  | dir (name : String) (children : List FTree)

/-- One priority pass of findFirstAsset: the first non-directory entry
whose file type is ty. -/
def findByType (dirPath : String) (ty : String) (items : List FTree) :
    Option (String × String) :=
  items.findSome? (fun it =>
    match it with
    | .file n =>
      let p := joinP dirPath n
      if getFileType p = ty then some (p, ty) else none
    | .dir _ _ => none)

/-- The third pass of findFirstAsset: any non-directory entry whose file
type is not unknown. -/
def findSupported (dirPath : String) (items : List FTree) :
    Option (String × String) :=
  items.findSome? (fun it =>
    match it with
    | .file n =>
      let p := joinP dirPath n
      let t := getFileType p
      if t = "unknown" then none else some (p, t)
    | .dir _ _ => none)

mutual

/-- server.js findFirstAsset on the children of dirPath: models first,
then images, then any supported type, then recurse into subdirectories
(the recursion in the source is unbounded, despite its comment). -/
def findFirstAsset (dirPath : String) (items : List FTree) :
    Option (String × String) :=
  match findByType dirPath ("models") items with
  | some r => some r
  | none =>
    match findByType dirPath ("images") items with
    | some r => some r
    | none =>
      match findSupported dirPath items with
      | some r => some r
      | none => findInSubdirs dirPath items
termination_by (sizeOf items, 1)

/-- The subdirectory loop of findFirstAsset: first non-empty recursive
result, in listing order. -/
def findInSubdirs (dirPath : String) : List FTree → Option (String × String)
  | [] => none
  | .file _ :: rest => findInSubdirs dirPath rest
  | .dir n cs :: rest =>
    match findFirstAsset (joinP dirPath n) cs with
    | some r => some r
    | none => findInSubdirs dirPath rest
termination_by l => (sizeOf l, 0)

end

/-- The /api/folder-preview endpoint (server.js lines 648-737): a cache
key without modification time, generation from the first asset found in
the folder, and insertion without any eviction. -/
def folderPreviewEndpoint (env : Env) (children : List FTree)
    (folderPath : String) (size : Nat) (cache : Cache) : Resp × Cache :=
  if env.fsExists folderPath = false then (.err 404, cache)
  else
    let cacheKey := folderPreviewKey folderPath size
    match cacheLookup cache cacheKey with
    | some b => (.ok ("image/jpeg") b, cache)
    | none =>
      match findFirstAsset folderPath children with
      | none => (.err 404, cache)
      | some (p, ty) =>
        let gen : Except Unit Bytes :=
          if ty = "images" then
            if lowerStr (extname p) = ".svg" then
              env.resizeSvg p (env.mtime p) size
            else
              env.resizeImage p (env.mtime p) size
          else if ty = "models" then
            generate3DModelThumbnail env p size
          else
            env.makeAssetIcon ty size
        match gen with
        | .error _ => (.err 500, cache)
        | .ok b => (.ok ("image/jpeg") b, mapSet cache cacheKey b)

/-! ## The model load queue (useModelLoader.ts, class ModelLoadQueue)

The queue's shared state is touched only from the single JS thread of
control; every synchronous block of the source between two suspension
points becomes one labelled deterministic step here. Callback
invocations and resource events are recorded in an event log. -/

/-- Comparator a.lastUsed - b.lastUsed (ascending) as a keep predicate. -/
def keepLastUsed : (String × Int) → (String × Int) → Bool :=
  fun a b => decide (a.2 ≤ b.2)

/-- ModelLoadQueue.cleanupOldModels: when more than maxLoaded (15)
handles are resident, collect those idle for over 120000 ms, sort them
oldest-first, and delete the first min(max(expired, excess), expired)
of them. Returns the surviving map and the cleaned ids in order. -/
def cleanupOldModels (now : Int) (models : List (String × Int)) :
    List (String × Int) × List String :=
  if models.length ≤ 15 then (models, [])
  else
    let modelsToCleanup := models.filter (fun m => decide (now - m.2 > 120000))
    let sorted := stableSort keepLastUsed modelsToCleanup
    let excessCount := models.length - 15
    let toCleanup := max sorted.length excessCount
    let victims := sorted.take (min toCleanup sorted.length)
    (victims.foldl (fun acc v => acc.eraseP (fun m => decide (m.1 = v.1))) models,
     victims.map Prod.fst)

/-- A load request as submitted to the queue; containerLive is the state
of request.containerRef.current at the time it is examined. -/
structure Request where
  id : String
  priority : Int
  containerLive : Bool
deriving DecidableEq

/-- Comparator (a, b) => b.priority - a.priority as a keep predicate
(descending priority, stable). -/
def keepPriority : Request → Request → Bool :=
  fun a b => decide (b.priority ≤ a.priority)

/-- queue.sort((a, b) => b.priority - a.priority). -/
def sortReqs (l : List Request) : List Request := stableSort keepPriority l

/-- Progress of an in-flight load operation: running until the loader's
success callback has executed its synchronous block (which ends in the
onLoad call), built afterwards. -/
inductive Stage
  | running
  | built
deriving DecidableEq

/-- One in-flight load operation together with its abort signal. -/
structure Flight where
  fid : String
  aborted : Bool
  stage : Stage
deriving DecidableEq

/-- Observable events of the queue: a load operation starting, the two
request callbacks, handle registration, and handle disposal. -/
inductive Ev
  | started (id : String)
  | onLoadCalled (id : String)
  | onErrorCalled (id : String)
  | registered (id : String)
  | disposed (id : String)
deriving DecidableEq

/-- The queue's shared state: pending queue, loading id set, in-flight
operations (abort controllers), loaded-handle map with last-used times,
and the event log in chronological order. -/
structure QState where
  queue : List Request
  loading : List String
  flights : List Flight
  loadedModels : List (String × Int)
  events : List Ev
deriving DecidableEq

/-- Set.add. -/
def addLoading (id : String) (l : List String) : List String :=
  if l.contains id then l else l ++ [id]

/-- Map.set on the loaded-handle map. -/
def mapSetTime (m : List (String × Int)) (k : String) (v : Int) :
    List (String × Int) :=
  if m.any (fun e => decide (e.1 = k)) then
    m.map (fun e => if e.1 = k then (k, v) else e)
  else m ++ [(k, v)]

/-- ModelLoadQueue.addRequest: drop any queued request with the same id;
if a handle is already loaded, refresh its timestamp and invoke onLoad;
otherwise push and re-sort by descending priority. -/
def addRequest (r : Request) (now : Int) (s : QState) : QState :=
  let q1 := s.queue.filter (fun x => decide (x.id ≠ r.id))
  if s.loadedModels.any (fun m => decide (m.1 = r.id)) then
    { s with
      queue := q1,
      loadedModels := s.loadedModels.map
        (fun m => if m.1 = r.id then (m.1, now) else m),
      events := s.events ++ [Ev.onLoadCalled r.id] }
  else
    { s with queue := sortReqs (q1 ++ [r]) }

/-- One iteration of the processQueue loop: with pending requests and
fewer than maxConcurrent (4) loads in flight, shift the front request;
a dead container is skipped silently, otherwise the id is marked
loading, an abort controller is created and the load starts. The guard,
the shift and the add are one synchronous block in the source. -/
def schedStep (s : QState) : QState :=
  match s.queue with
  | [] => s
  | r :: rest =>
    if s.loading.length < 4 then
      if r.containerLive then
        { s with
          queue := rest,
          loading := addLoading r.id s.loading,
          flights := ⟨r.id, false, Stage.running⟩ :: s.flights,
          events := s.events ++ [Ev.started r.id] }
      else { s with queue := rest }
    else s

/-- ModelLoadQueue.removeRequest: drop the id from the queue; when it is
currently loading, abort its controller and free the loading slot. -/
def cancelStep (id : String) (s : QState) : QState :=
  let q1 := s.queue.filter (fun x => decide (x.id ≠ id))
  if s.loading.contains id then
    { s with
      queue := q1,
      flights := s.flights.map
        (fun f => if f.fid = id then { f with aborted := true } else f),
      loading := s.loading.filter (fun x => decide (x ≠ id)) }
  else { s with queue := q1 }

/-- The loader success callback for a running, unaborted operation: it
runs synchronously from its abort check through scene assembly to the
onLoad call (useModelLoader.ts lines 409-512), then resolves. An
aborted operation rejects at the abort check instead (silentFinish). -/
def buildDoneStep (id : String) (s : QState) : QState :=
  if s.flights.any (fun f =>
      decide (f.fid = id ∧ f.aborted = false ∧ f.stage = Stage.running)) then
    { s with
      flights := s.flights.map (fun f =>
        if f.fid = id ∧ f.aborted = false ∧ f.stage = Stage.running then
          { f with stage := Stage.built }
        else f),
      events := s.events ++ [Ev.onLoadCalled id] }
  else s

/-- The resumption of processQueue after a successful load (lines
233-256): if the signal is not aborted, register the handle (then clean
up when over maxLoaded); in both cases the finally block frees the
loading slot and drops the controller. An aborted completed result is
dropped without disposal. -/
def settleStep (id : String) (now : Int) (s : QState) : QState :=
  match s.flights.find? (fun f => decide (f.fid = id ∧ f.stage = Stage.built)) with
  | none => s
  | some f =>
    let flights1 := s.flights.eraseP
      (fun g => decide (g.fid = id ∧ g.stage = Stage.built))
    let loading1 := s.loading.filter (fun x => decide (x ≠ id))
    if f.aborted then
      { s with flights := flights1, loading := loading1 }
    else
      let m1 := mapSetTime s.loadedModels id now
      let cleaned := cleanupOldModels now m1
      { s with
        flights := flights1,
        loading := loading1,
        loadedModels := cleaned.1,
        events := (s.events ++ [Ev.registered id]) ++ cleaned.2.map Ev.disposed }

/-- The resumption of processQueue after a load threw: onError is
invoked unless the signal was aborted; the finally block frees the
slot. -/
def completeErrorStep (id : String) (s : QState) : QState :=
  match s.flights.find? (fun f => decide (f.fid = id ∧ f.stage = Stage.running)) with
  | none => s
  | some f =>
    { s with
      flights := s.flights.eraseP
        (fun g => decide (g.fid = id ∧ g.stage = Stage.running)),
      loading := s.loading.filter (fun x => decide (x ≠ id)),
      events := if f.aborted then s.events
        else s.events ++ [Ev.onErrorCalled id] }

/-- A load operation returning early with no result: an abort signal
observed at a suspension point, or a container that disappeared. The
finally block frees the slot; no callback runs. -/
def silentFinishStep (id : String) (s : QState) : QState :=
  if s.flights.any (fun f => decide (f.fid = id ∧ f.stage = Stage.running)) then
    { s with
      flights := s.flights.eraseP
        (fun g => decide (g.fid = id ∧ g.stage = Stage.running)),
      loading := s.loading.filter (fun x => decide (x ≠ id)) }
  else s

/-- The periodic cleanup sweep (setInterval of 30 s): cleanupOldModels,
with deepCleanupModel recorded as a disposed event per cleaned id. -/
def sweepStep (now : Int) (s : QState) : QState :=
  let cleaned := cleanupOldModels now s.loadedModels
  { s with
    loadedModels := cleaned.1,
    events := s.events ++ cleaned.2.map Ev.disposed }

/-- The labels of the queue's atomic steps. -/
inductive QLabel
  | submit (r : Request) (now : Int)
  | sched
  | cancel (id : String)
  | buildDone (id : String)
  | settle (id : String) (now : Int)
  | completeError (id : String)
  | silentFinish (id : String)
  | sweep (now : Int)
deriving DecidableEq

/-- The step interpreter. -/
def stepF (l : QLabel) (s : QState) : QState :=
  match l with
  | .submit r now => addRequest r now s
  | .sched => schedStep s
  | .cancel id => cancelStep id s
  | .buildDone id => buildDoneStep id s
  | .settle id now => settleStep id now s
  | .completeError id => completeErrorStep id s
  | .silentFinish id => silentFinishStep id s
  | .sweep now => sweepStep now s

/-- The initial queue state. -/
def initQ : QState := ⟨[], [], [], [], []⟩

/-- Run a sequence of steps. -/
def runQ (ls : List QLabel) (s : QState) : QState :=
  ls.foldl (fun t l => stepF l t) s

/-- The queue invariant: at most maxConcurrent (4) ids are loading, and
the pending queue is sorted by descending priority. -/
def QInv (s : QState) : Prop :=
  s.loading.length ≤ 4
  ∧ s.queue.Pairwise (fun a b => keepPriority a b = true)

/-- After a cancellation of id: the id is no longer queued and every
in-flight operation for it carries a raised abort signal. -/
def QProt (id : String) (s : QState) : Prop :=
  (∀ x ∈ s.queue, x.id ≠ id)
  ∧ (∀ f ∈ s.flights, f.fid = id → f.aborted = true)

/-! ## Concrete fixtures used by counterexamples and witnesses -/

/-- An environment in which everything exists and succeeds; resized
image bytes equal the modification time passed in, so a stale response
is recognizable. -/
def envOk : Env :=
  { fsExists := fun _ => true,
    mtime := fun _ => 1,
    readdir := fun _ => .error (),
    readFile := fun _ m => m,
    resizeImage := fun _ m _ => .ok m,
    resizeSvg := fun _ m _ => .ok m,
    compositeTexture := fun _ _ => .ok 77,
    makeIcon := fun _ _ => .ok 88,
    makeTypeIcon := fun _ _ => .ok 99,
    makeAssetIcon := fun _ _ => .ok 55 }

/-- envOk after the watched file was modified: every modification time
is now 2, so freshly generated image bytes would be 2. -/
def envTouched : Env := { envOk with mtime := fun _ => 2 }

/-- envOk with a failing image decode (a corrupt raster file). -/
def envBadImage : Env := { envOk with resizeImage := fun _ _ _ => .error () }

/-- A folder containing a single raster image. -/
def treeOneImage : List FTree := [FTree.file ("a.png")]

/-- A folder whose only asset sits two subdirectory levels down. -/
def treeNested : List FTree :=
  [FTree.dir ("a") [FTree.dir ("b") [FTree.file ("m.glb")]]]

/-- A cache already holding 100 entries with keys 0..99. -/
def cache100 : Cache := (List.range 100).map (fun i => (Nat.repr i, 0))

/-- Sixteen loaded handles, all used at time 0. -/
def models16 : List (String × Int) :=
  (List.range 16).map (fun i => (Nat.repr i, (0 : Int)))

/-- The raced-cancellation trace: a load completes (its success
callback has run), the request is cancelled in the microtask gap before
the queue resumes, and the queue then settles the aborted result. -/
def traceC7 : List QLabel :=
  [QLabel.submit ⟨"m1", 0, true⟩ 0, QLabel.sched, QLabel.buildDone ("m1"),
    QLabel.cancel ("m1"), QLabel.settle ("m1") 5]

/-- Modelled from the spec (claim C8 wording): the first image file
found in the directory, in listing order. -/
def specFirstImageFile (files : List String) : Option String :=
  (files.filter (fun f => imageExtsScan.contains (lowerStr (extname f)))).head?

/-! ## Supporting lemmas -/

theorem digitVal_digitChar (k : Nat) (h : k < 10) :
    digitVal (Nat.digitChar k) = k := by
  interval_cases k <;> rfl

theorem toDigitsCore_append (n : Nat) : ∀ fuel ds, n < fuel →
    Nat.toDigitsCore 10 fuel n ds = Nat.toDigitsCore 10 (n + 1) n [] ++ ds := by
  induction n using Nat.strong_induction_on with
  | _ n ih =>
    intro fuel ds hfuel
    match fuel, hfuel with
    | f + 1, hfuel =>
      by_cases hq : n / 10 = 0
      · simp [Nat.toDigitsCore, hq]
      · have hq_lt_n : n / 10 < n := Nat.div_lt_self (Nat.pos_of_ne_zero (by
          intro h0; exact hq (by simp [h0]))) (by norm_num)
        have hq_lt_f : n / 10 < f := by
          have hn_le : n ≤ f := Nat.lt_succ_iff.mp hfuel
          omega
        have h1 := ih (n / 10) hq_lt_n f (Nat.digitChar (n % 10) :: ds) hq_lt_f
        have h2 := ih (n / 10) hq_lt_n n (Nat.digitChar (n % 10) :: []) hq_lt_n
        simp only [Nat.toDigitsCore, hq, if_false]
        rw [h1, h2]
        simp

theorem valOfDigits_append_one (l : List Char) (c : Char) :
    valOfDigits (l ++ [c]) = 10 * valOfDigits l + digitVal c := by
  simp [valOfDigits, List.foldl_append]

theorem valOfDigits_toDigits (n : Nat) :
    valOfDigits (Nat.toDigits 10 n) = n := by
  induction n using Nat.strong_induction_on with
  | _ n ih =>
    by_cases hq : n / 10 = 0
    · have hn : n < 10 := by omega
      have hmod : n % 10 = n := Nat.mod_eq_of_lt hn
      simp only [Nat.toDigits, Nat.toDigitsCore, hq, if_true, valOfDigits,
        List.foldl, Nat.mul_zero, Nat.zero_add, hmod]
      exact digitVal_digitChar n hn
    · have hq_lt_n : n / 10 < n := Nat.div_lt_self (by omega) (by norm_num)
      have hstep : Nat.toDigits 10 n =
          Nat.toDigits 10 (n / 10) ++ [Nat.digitChar (n % 10)] := by
        simp only [Nat.toDigits, Nat.toDigitsCore, hq, if_false]
        exact toDigitsCore_append (n / 10) n [Nat.digitChar (n % 10)] hq_lt_n
      rw [hstep, valOfDigits_append_one, ih (n / 10) hq_lt_n,
        digitVal_digitChar _ (by omega : n % 10 < 10)]
      omega

theorem toDigits_inj {m n : Nat}
    (h : Nat.toDigits 10 m = Nat.toDigits 10 n) : m = n := by
  have := congrArg valOfDigits h
  rwa [valOfDigits_toDigits, valOfDigits_toDigits] at this

theorem natRepr_data (n : Nat) : (Nat.repr n).data = Nat.toDigits 10 n := rfl

theorem natRepr_inj {m n : Nat} (h : Nat.repr m = Nat.repr n) : m = n := by
  apply toDigits_inj
  rw [← natRepr_data, ← natRepr_data, h]

theorem insertStable_perm (keep : α → α → Bool) (x : α) (l : List α) :
    (insertStable keep x l).Perm (x :: l) := by
  induction l with
  | nil => simp [insertStable]
  | cons y ys ih =>
    by_cases h : keep y x = true
    · simp only [insertStable, h, if_true]
      exact ((ih.cons y).trans (List.Perm.swap x y ys))
    · simp only [insertStable, h, if_false]
      exact List.Perm.refl _

theorem foldl_insertStable_perm (keep : α → α → Bool) :
    ∀ (l acc : List α),
      (l.foldl (fun a x => insertStable keep x a) acc).Perm (l ++ acc) := by
  intro l
  induction l with
  | nil => intro acc; simp
  | cons x xs ih =>
    intro acc
    have h1 := ih (insertStable keep x acc)
    have h2 : (xs ++ insertStable keep x acc).Perm (xs ++ x :: acc) :=
      List.Perm.append_left xs (insertStable_perm keep x acc)
    have h3 : (xs ++ x :: acc).Perm (x :: (xs ++ acc)) :=
      List.perm_middle
    simpa using (h1.trans (h2.trans h3))

theorem stableSort_perm (keep : α → α → Bool) (l : List α) :
    (stableSort keep l).Perm l := by
  simpa [stableSort] using foldl_insertStable_perm keep l []

theorem insertStable_sorted (keep : α → α → Bool)
    (htot : ∀ a b, keep a b = true ∨ keep b a = true)
    (htrans : ∀ a b c, keep a b = true → keep b c = true → keep a c = true)
    (x : α) (l : List α) (hl : l.Pairwise (fun a b => keep a b = true)) :
    (insertStable keep x l).Pairwise (fun a b => keep a b = true) := by
  induction l with
  | nil => simp [insertStable]
  | cons y ys ih =>
    rcases List.pairwise_cons.mp hl with ⟨hy, hys⟩
    by_cases h : keep y x = true
    · simp only [insertStable, h, if_true]
      refine List.pairwise_cons.mpr ⟨?_, ih hys⟩
      intro z hz
      rcases List.mem_cons.mp ((insertStable_perm keep x ys).mem_iff.mp hz) with
        hzx | hzys
      · subst hzx; exact h
      · exact hy z hzys
    · simp only [insertStable, h, if_false]
      refine List.pairwise_cons.mpr ⟨?_, hl⟩
      intro z hz
      have hxy : keep x y = true := by
        rcases htot x y with h1 | h1
        · exact h1
        · exact absurd h1 h
      rcases List.mem_cons.mp hz with hzy | hzys
      · subst hzy; exact hxy
      · exact htrans x y z hxy (hy z hzys)

theorem stableSort_sorted (keep : α → α → Bool)
    (htot : ∀ a b, keep a b = true ∨ keep b a = true)
    (htrans : ∀ a b c, keep a b = true → keep b c = true → keep a c = true)
    (l : List α) :
    (stableSort keep l).Pairwise (fun a b => keep a b = true) := by
  have main : ∀ (l acc : List α),
      acc.Pairwise (fun a b => keep a b = true) →
      (l.foldl (fun a x => insertStable keep x a) acc).Pairwise
        (fun a b => keep a b = true) := by
    intro l
    induction l with
    | nil => intro acc h; exact h
    | cons x xs ih =>
      intro acc h
      exact ih _ (insertStable_sorted keep htot htrans x acc h)
  exact main l [] (by simp)

theorem stableSort_head_max (keep : α → α → Bool)
    (htot : ∀ a b, keep a b = true ∨ keep b a = true)
    (htrans : ∀ a b c, keep a b = true → keep b c = true → keep a c = true)
    (l : List α) (x : α) (rest : List α)
    (h : stableSort keep l = x :: rest) :
    x ∈ l ∧ ∀ y ∈ l, keep x y = true := by
  have hperm := stableSort_perm keep l
  rw [h] at hperm
  constructor
  · exact hperm.mem_iff.mp (List.mem_cons_self x rest)
  · intro y hy
    have hy2 : y ∈ x :: rest := hperm.symm.subset hy
    rcases List.mem_cons.mp hy2 with hyx | hyrest
    · subst hyx
      rcases htot y y with h1 | h1 <;> exact h1
    · have hs := stableSort_sorted keep htot htrans l
      rw [h] at hs
      exact (List.pairwise_cons.mp hs).1 y hyrest

theorem keepScore_total (a b : String × Int) :
    keepScore a b = true ∨ keepScore b a = true := by
  simp only [keepScore, decide_eq_true_eq]
  exact Int.le_total b.2 a.2

theorem keepScore_trans (a b c : String × Int)
    (h1 : keepScore a b = true) (h2 : keepScore b c = true) :
    keepScore a c = true := by
  simp only [keepScore, decide_eq_true_eq] at h1 h2 ⊢
  exact le_trans h2 h1

theorem keepPriority_total (a b : Request) :
    keepPriority a b = true ∨ keepPriority b a = true := by
  simp only [keepPriority, decide_eq_true_eq]
  exact Int.le_total b.priority a.priority

theorem keepPriority_trans (a b c : Request)
    (h1 : keepPriority a b = true) (h2 : keepPriority b c = true) :
    keepPriority a c = true := by
  simp only [keepPriority, decide_eq_true_eq] at h1 h2 ⊢
  exact le_trans h2 h1

/-- Evaluation helper: the folder with one raster image resolves to that
image. -/
theorem findFirstAsset_treeOneImage :
    findFirstAsset ("/f") treeOneImage = some ("/f/a.png", "images") := by
  simp only [treeOneImage, findFirstAsset, findInSubdirs, findByType, findSupported]
  decide

/-! ## Claim C9 -/

/-- C9: the claim says findRepresentativeAsset recurses at most one
level into subdirectories and never returns entries nested deeper. The
code (and this embedding of it) recurses without any depth bound - its
own comment says "only one level deep", but no level counter exists -
so a folder whose only asset sits two subdirectory levels down returns
that asset. -/
theorem c9_depth_two_returned :
    findFirstAsset ("/root") treeNested = some ("/root/a/b/m.glb", "models") := by
  simp only [treeNested, findFirstAsset, findInSubdirs, findByType, findSupported]
  decide

/-! ## Claim C6 -/

/-- C6: the claim says that whenever the loaded-handle count exceeds
maxLoaded = 15 the sweep evicts at least enough least-recently-used
handles to return to the bound. In the code the number of deletions is
min(max(expired, excess), expired) = expired, so with 16 resident
handles all used at time 0 and a sweep at time 1000 (no handle idle for
over 120000 ms) nothing is evicted and the count stays 16 > 15. -/
theorem c6_no_eviction_over_bound :
    cleanupOldModels 1000 models16 = (models16, []) ∧
      models16.length = 16 ∧ 15 < models16.length := by
  constructor
  · decide
  · constructor <;> decide

/-! ## Claim C8 -/

/-- C8 counterexample: in a directory with image files but no exact
candidate name and no positive score, the scan returns the
highest-scoring image file, not the first image file in listing order
as the claim states. Listing ["a_bump.jpg", "b_normal.png"] for model
name "mdl" scores -18 and -17: the fallback returns b_normal.png while
the first image file found is a_bump.jpg. -/
theorem c8_counterexample :
    scanForTexture ("mdl") (["a_bump.jpg", "b_normal.png"]) = some ("b_normal.png")
    ∧ specFirstImageFile (["a_bump.jpg", "b_normal.png"]) = some ("a_bump.jpg")
    ∧ scoreFile ("mdl") ("a_bump.jpg") ≤ 0
    ∧ scoreFile ("mdl") ("b_normal.png") ≤ 0
    ∧ (textureNames ("mdl")).all
        (fun n => !(["a_bump.jpg", "b_normal.png"] : List String).contains n)
    ∧ some ("b_normal.png") ≠ some ("a_bump.jpg") := by
  refine ⟨by decide, by decide, by decide, by decide, by decide, by decide⟩

/-- C8 amended: when no exact candidate filename exists, the directory
has image files and none scores positive, resolveTexture's last-resort
fallback returns an image file of maximal heuristic score (the head of
the stable descending sort; ties keep listing order), not the first
image file in listing order. -/
theorem c8_amended_highest_score (modelName : String) (files : List String)
    (hne : files.filter (fun f => imageExtsScan.contains (lowerStr (extname f))) ≠ [])
    (_hnp : ∀ f ∈ files.filter (fun f => imageExtsScan.contains (lowerStr (extname f))),
      scoreFile modelName f ≤ 0) :
    ∃ best, scanForTexture modelName files = some best ∧
      best ∈ files.filter (fun f => imageExtsScan.contains (lowerStr (extname f))) ∧
      ∀ g ∈ files.filter (fun f => imageExtsScan.contains (lowerStr (extname f))),
        scoreFile modelName g ≤ scoreFile modelName best := by
  classical
  set imgs := files.filter (fun f => imageExtsScan.contains (lowerStr (extname f)))
    with himgs
  set scored := imgs.map (fun f => (f, scoreFile modelName f)) with hscored
  have hscne : scored ≠ [] := by
    intro h
    exact hne (List.map_eq_nil_iff.mp (hscored ▸ h))
  cases hs : stableSort keepScore scored with
  | nil =>
    exfalso
    have := (stableSort_perm keepScore scored).length_eq
    rw [hs] at this
    exact hscne (List.length_eq_zero.mp this.symm)
  | cons best rest =>
    have hmax := stableSort_head_max keepScore keepScore_total keepScore_trans
      scored best rest hs
    obtain ⟨f0, hf0, hbeq⟩ := List.mem_map.mp hmax.1
    refine ⟨best.1, ?_, ?_, ?_⟩
    · simp only [scanForTexture, ← himgs, ← hscored, hs, ite_self]
    · rw [← hbeq]
      exact hf0
    · intro g hg
      have hgs : (g, scoreFile modelName g) ∈ scored := by
        rw [hscored]
        exact List.mem_map_of_mem _ hg
      have hk := hmax.2 _ hgs
      simp only [keepScore, decide_eq_true_eq] at hk
      have hb2 : best.2 = scoreFile modelName best.1 := by
        rw [← hbeq]
      rwa [hb2] at hk

/-- C8 amended witness: the amended theorem applied to the
counterexample listing. -/
theorem c8_amended_witness :
    (["a_bump.jpg", "b_normal.png"].filter
        (fun f => imageExtsScan.contains (lowerStr (extname f))) ≠ []) ∧
    (∃ best, scanForTexture ("mdl") (["a_bump.jpg", "b_normal.png"]) = some best ∧
      best ∈ ["a_bump.jpg", "b_normal.png"].filter
        (fun f => imageExtsScan.contains (lowerStr (extname f))) ∧
      ∀ g ∈ ["a_bump.jpg", "b_normal.png"].filter
        (fun f => imageExtsScan.contains (lowerStr (extname f))),
        scoreFile ("mdl") g ≤ scoreFile ("mdl") best) :=
  ⟨by decide,
    c8_amended_highest_score ("mdl") (["a_bump.jpg", "b_normal.png"])
      (by decide) (by decide)⟩

/-- A path whose lowercased extension is .svg is classified as an
image. -/
theorem getFileType_svg (p : String) (h : lowerStr (extname p) = ".svg") :
    getFileType p = "images" := by
  simp only [getFileType, h]
  decide

/-! ## Claim C10 -/

/-- C10: for an SVG image file the thumbnail endpoint never modifies
the cache (on the pass-through branch it returns before the insertion),
on a cache miss it answers with the original file bytes under the SVG
content type, and since the cache is unchanged a repeated request
behaves identically, re-reading the file. -/
theorem c10_svg_not_cached (env : Env) (p : String) (s : Nat) (c : Cache)
    (hfs : env.fsExists p = true)
    (hsvg : lowerStr (extname p) = ".svg") :
    (thumbnailEndpoint env p s c).2 = c
    ∧ (cacheLookup c (thumbKey p s (env.mtime p)) = none →
        (thumbnailEndpoint env p s c).1 =
          Resp.ok ("image/svg+xml") (env.readFile p (env.mtime p)))
    ∧ thumbnailEndpoint env p s ((thumbnailEndpoint env p s c).2) =
        thumbnailEndpoint env p s c := by
  have him : getFileType p = "images" := getFileType_svg p hsvg
  cases hc : cacheLookup c (thumbKey p s (env.mtime p)) with
  | some b =>
    refine ⟨by simp [thumbnailEndpoint, hfs, hc], ?_, ?_⟩
    · intro h
      exact Option.noConfusion h
    · simp [thumbnailEndpoint, hfs, hc]
  | none =>
    refine ⟨by simp [thumbnailEndpoint, hfs, hc, him, hsvg], ?_, ?_⟩
    · intro _
      simp [thumbnailEndpoint, hfs, hc, him, hsvg]
    · simp [thumbnailEndpoint, hfs, hc, him, hsvg]

/-- C10 witness: the theorem applied to a concrete SVG request on the
empty cache. -/
theorem c10_witness :
    (envOk.fsExists ("/f/a.svg") = true ∧ lowerStr (extname ("/f/a.svg")) = ".svg")
    ∧ ((thumbnailEndpoint envOk ("/f/a.svg") 200 []).2 = ([] : Cache)
      ∧ (cacheLookup [] (thumbKey ("/f/a.svg") 200 (envOk.mtime ("/f/a.svg"))) = none →
          (thumbnailEndpoint envOk ("/f/a.svg") 200 []).1 =
            Resp.ok ("image/svg+xml") (envOk.readFile ("/f/a.svg") (envOk.mtime ("/f/a.svg"))))
      ∧ thumbnailEndpoint envOk ("/f/a.svg") 200
            ((thumbnailEndpoint envOk ("/f/a.svg") 200 []).2) =
          thumbnailEndpoint envOk ("/f/a.svg") 200 []) :=
  ⟨⟨by decide, by decide⟩,
    c10_svg_not_cached envOk ("/f/a.svg") 200 [] (by decide) (by decide)⟩

/-! ## Claim C3 -/

/-- C3 counterexample: the claim says a read/decode failure on any
existing file yields a generated fallback icon. For an existing raster
image whose decode fails, the thumbnail endpoint's catch block answers
with a 500 error response instead; no fallback is generated. -/
theorem c3_counterexample :
    envBadImage.fsExists ("/f/bad.png") = true
    ∧ thumbnailEndpoint envBadImage ("/f/bad.png") 200 [] = (Resp.err 500, [])
    ∧ ∀ ct b, Resp.err 500 ≠ Resp.ok ct b := by
  refine ⟨by decide, by decide, ?_⟩
  intro ct b h
  cases h

/-- C3 amended: the fallback-icon behavior holds for model-type assets:
whenever the synthetic icon generator succeeds, the thumbnail endpoint
answers a model file with an image response, regardless of texture
resolution or texture compositing failures. Raster image decode
failures, by contrast, surface as a 500 response (see the
counterexample). -/
theorem c3_amended_models_fallback (env : Env) (p : String) (s : Nat) (c : Cache)
    (hfs : env.fsExists p = true)
    (hmodel : getFileType p = "models")
    (ib : Bytes) (hicon : env.makeIcon p s = .ok ib) :
    ∃ b, (thumbnailEndpoint env p s c).1 = Resp.ok ("image/jpeg") b := by
  cases hc : cacheLookup c (thumbKey p s (env.mtime p)) with
  | some b => exact ⟨b, by simp [thumbnailEndpoint, hfs, hc]⟩
  | none =>
    have hgen : ∃ b, generate3DModelThumbnail env p s = .ok b := by
      unfold generate3DModelThumbnail
      cases hfc : findColormap env p with
      | none => exact ⟨ib, by simp [hicon]⟩
      | some cp =>
        cases hct : env.compositeTexture cp s with
        | ok b => exact ⟨b, by simp [hct]⟩
        | error e => exact ⟨ib, by simp [hct, hicon]⟩
    obtain ⟨b, hb⟩ := hgen
    exact ⟨b, by simp [thumbnailEndpoint, hfs, hc, hmodel, hb]⟩

/-- C3 amended witness: a model file in the everything-succeeds
environment. -/
theorem c3_amended_witness :
    (envOk.fsExists ("/f/m.glb") = true
      ∧ getFileType ("/f/m.glb") = "models"
      ∧ envOk.makeIcon ("/f/m.glb") 200 = .ok 88)
    ∧ ∃ b, (thumbnailEndpoint envOk ("/f/m.glb") 200 []).1 =
        Resp.ok ("image/jpeg") b :=
  ⟨⟨by decide, by decide, rfl⟩,
    c3_amended_models_fallback envOk ("/f/m.glb") 200 [] (by decide) (by decide)
      88 rfl⟩

/-- Different modification times produce different thumbnail cache
keys: the mtime is the last dash-separated component of the key and
decimal rendering is injective. -/
theorem thumbKey_mtime_ne (p : String) (s : Nat) {m1 m2 : Nat} (h : m1 ≠ m2) :
    thumbKey p s m1 ≠ thumbKey p s m2 := by
  intro he
  apply h
  have hd := congrArg String.data he
  simp only [thumbKey] at hd
  have e1 : ∀ m : Nat, (p ++ "-" ++ Nat.repr s ++ "-" ++ Nat.repr m).data
      = (p ++ "-" ++ Nat.repr s ++ "-").data ++ (Nat.repr m).data := fun m => rfl
  rw [e1 m1, e1 m2] at hd
  have hrm : (Nat.repr m1).data = (Nat.repr m2).data :=
    List.append_cancel_left hd
  exact toDigits_inj (by rw [← natRepr_data, ← natRepr_data, hrm])

/-- A cache entry under a different key is invisible to a lookup. -/
theorem cacheLookup_cons_ne {k1 k2 : String} (v : Bytes) (c : Cache)
    (h : k1 ≠ k2) :
    cacheLookup ((k1, v) :: c) k2 = cacheLookup c k2 := by
  simp [cacheLookup, List.find?, h]

/-! ## Claim C1 -/

/-- C1 counterexample: the folder-preview endpoint's cache key has no
modification time, so after the folder's image is modified (mtime 1 to
2, fresh bytes would be 2) the second request hits the old entry and
serves the previously cached bytes 1. This falsifies the claim's
"including the folder-preview endpoint" scope. -/
theorem c1_counterexample :
    (folderPreviewEndpoint envOk treeOneImage ("/f") 200 []).1 =
      Resp.ok ("image/jpeg") 1
    ∧ (folderPreviewEndpoint envTouched treeOneImage ("/f") 200
        ((folderPreviewEndpoint envOk treeOneImage ("/f") 200 []).2)).1 =
      Resp.ok ("image/jpeg") 1
    ∧ envTouched.mtime ("/f/a.png") ≠ envOk.mtime ("/f/a.png")
    ∧ envTouched.resizeImage ("/f/a.png") (envTouched.mtime ("/f/a.png")) 200 =
        .ok 2
    ∧ (1 : Bytes) ≠ 2 := by
  have hfa := findFirstAsset_treeOneImage
  refine ⟨?_, ?_, by decide, rfl, by decide⟩
  · simp only [folderPreviewEndpoint, hfa]
    decide
  · simp only [folderPreviewEndpoint, hfa]
    decide

/-- C1 amended: for the /api/thumbnail endpoint the claim holds: its
cache key contains the file's current modification time, so an entry
recorded under any other modification time for the same (path, size)
never influences the response - the stale entry is simply never hit. -/
theorem c1_amended_thumbnail_no_stale (env : Env) (p : String) (s : Nat)
    (m1 : Nat) (v : Bytes) (c : Cache) (h : env.mtime p ≠ m1) :
    (thumbnailEndpoint env p s ((thumbKey p s m1, v) :: c)).1 =
      (thumbnailEndpoint env p s c).1 := by
  have hk : thumbKey p s m1 ≠ thumbKey p s (env.mtime p) :=
    thumbKey_mtime_ne p s (Ne.symm h)
  have hl : cacheLookup ((thumbKey p s m1, v) :: c) (thumbKey p s (env.mtime p)) =
      cacheLookup c (thumbKey p s (env.mtime p)) :=
    cacheLookup_cons_ne v c hk
  cases hfs : env.fsExists p with
  | false => simp [thumbnailEndpoint, hfs]
  | true =>
    cases hc : cacheLookup c (thumbKey p s (env.mtime p)) with
    | some b =>
      rw [hc] at hl
      simp [thumbnailEndpoint, hfs, hc, hl]
    | none =>
      rw [hc] at hl
      by_cases him : getFileType p = "images"
      · by_cases hsvg : lowerStr (extname p) = ".svg"
        · simp [thumbnailEndpoint, hfs, hc, hl, him, hsvg]
        · cases hr : env.resizeImage p (env.mtime p) s with
          | error e => simp [thumbnailEndpoint, hfs, hc, hl, him, hsvg, hr]
          | ok b => simp [thumbnailEndpoint, hfs, hc, hl, him, hsvg, hr]
      · by_cases hmd : getFileType p = "models"
        · cases hr : generate3DModelThumbnail env p s with
          | error e => simp [thumbnailEndpoint, hfs, hc, hl, him, hmd, hr]
          | ok b => simp [thumbnailEndpoint, hfs, hc, hl, him, hmd, hr]
        · cases hr : env.makeTypeIcon (getFileType p) s with
          | error e => simp [thumbnailEndpoint, hfs, hc, hl, him, hmd, hr]
          | ok b => simp [thumbnailEndpoint, hfs, hc, hl, him, hmd, hr]

/-- C1 amended witness: a stale entry for mtime 7 does not change the
response of a request whose current mtime is 1. -/
theorem c1_amended_witness :
    (envOk.mtime ("/f/a.png") ≠ 7)
    ∧ (thumbnailEndpoint envOk ("/f/a.png") 200
        [(thumbKey ("/f/a.png") 200 7, 42)]).1 =
      (thumbnailEndpoint envOk ("/f/a.png") 200 []).1 :=
  ⟨by decide,
    c1_amended_thumbnail_no_stale envOk ("/f/a.png") 200 7 42 [] (by decide)⟩

/-- Deleting the leading keys of a cache, in order, drops its prefix:
each deletion targets the entry at the front of what remains. -/
theorem foldDelete_take : ∀ (c : Cache) (j : Nat),
    ((c.map Prod.fst).take j).foldl (fun acc k => mapDeleteKey acc k) c =
      c.drop j := by
  intro c
  induction c with
  | nil => intro j; simp
  | cons e rest ih =>
    intro j
    cases j with
    | zero => simp
    | succ j' =>
      have hdel : mapDeleteKey (e :: rest) e.1 = rest := by
        simp [mapDeleteKey, List.eraseP_cons_of_pos]
      simp only [List.map_cons, List.take_succ_cons, List.foldl_cons, hdel,
        List.drop_succ_cons]
      exact ih j'

/-- The eviction block trims the cache to its newest min(size, 100)
entries, removing the oldest-inserted ones. -/
theorem evictOld_eq_drop (c : Cache) :
    evictOld c = c.drop (c.length - 100) := by
  by_cases h : c.length > 100
  · simp only [evictOld, h, if_true]
    exact foldDelete_take c (c.length - 100)
  · have h0 : c.length - 100 = 0 := Nat.sub_eq_zero_of_le (Nat.le_of_not_lt h)
    simp [evictOld, h, h0]

/-- A missed key is fresh: no cached entry carries it. -/
theorem cacheLookup_none_fresh {c : Cache} {k : String}
    (h : cacheLookup c k = none) :
    c.any (fun e => decide (e.1 = k)) = false := by
  simp only [cacheLookup] at h
  cases hf : c.find? (fun e => decide (e.1 = k)) with
  | some e => rw [hf] at h; cases h
  | none =>
    rw [List.find?_eq_none] at hf
    simp only [List.any_eq_false]
    intro x hx
    exact fun hd => hf x hx hd

/-- Map.set of a fresh key appends the entry. -/
theorem mapSet_fresh {c : Cache} {k : String} (v : Bytes)
    (h : c.any (fun e => decide (e.1 = k)) = false) :
    mapSet c k v = c ++ [(k, v)] := by
  simp [mapSet, h]

/-- Inserting a fresh key and evicting keeps the newest entries: the
resulting cache is an explicit suffix of the appended cache and holds at
most max(previous size, 100) entries. -/
theorem insertEvict_spec (c : Cache) (k : String) (v : Bytes)
    (hfresh : c.any (fun e => decide (e.1 = k)) = false) :
    evictOld (mapSet c k v) = (c ++ [(k, v)]).drop (c.length + 1 - 100)
    ∧ (evictOld (mapSet c k v)).length ≤ max c.length 100 := by
  rw [mapSet_fresh v hfresh, evictOld_eq_drop]
  constructor
  · simp
  · simp only [List.length_drop, List.length_append, List.length_singleton]
    omega

/-! ## Claim C2 -/

/-- C2 counterexample: the claim's bound covers every endpoint that
writes to the thumbnail cache, but the folder-preview endpoint inserts
without any eviction: a folder-preview insertion into a cache that
already holds 100 entries leaves 101 entries resident. -/
theorem c2_counterexample :
    cache100.length = 100
    ∧ (folderPreviewEndpoint envOk treeOneImage ("/f") 200 cache100).2.length = 101
    ∧ 100 < (folderPreviewEndpoint envOk treeOneImage ("/f") 200 cache100).2.length := by
  have hfa := findFirstAsset_treeOneImage
  refine ⟨by decide, ?_, ?_⟩
  · simp only [folderPreviewEndpoint, hfa]
    decide
  · simp only [folderPreviewEndpoint, hfa]
    decide

/-- C2 amended: the bound holds for the thumbnail endpoint itself: a
request either leaves the cache unchanged or appends its fresh key and
trims to the newest 100 entries by dropping the oldest-inserted prefix,
so the cache never grows beyond max(previous size, 100); the
folder-preview endpoint's insertions perform no eviction (see the
counterexample). -/
theorem c2_amended_thumbnail_bound (env : Env) (p : String) (s : Nat)
    (c : Cache) (hmiss : cacheLookup c (thumbKey p s (env.mtime p)) = none) :
    ((thumbnailEndpoint env p s c).2 = c ∨
      ∃ b, (thumbnailEndpoint env p s c).2 =
        (c ++ [(thumbKey p s (env.mtime p), b)]).drop (c.length + 1 - 100))
    ∧ (thumbnailEndpoint env p s c).2.length ≤ max c.length 100 := by
  have hfresh := cacheLookup_none_fresh hmiss
  have hmax : c.length ≤ max c.length 100 := le_max_left _ _
  cases hfs : env.fsExists p with
  | false =>
    constructor
    · left; simp [thumbnailEndpoint, hfs]
    · simp [thumbnailEndpoint, hfs, hmax]
  | true =>
    by_cases him : getFileType p = "images"
    · by_cases hsvg : lowerStr (extname p) = ".svg"
      · constructor
        · left; simp [thumbnailEndpoint, hfs, hmiss, him, hsvg]
        · simp [thumbnailEndpoint, hfs, hmiss, him, hsvg, hmax]
      · cases hr : env.resizeImage p (env.mtime p) s with
        | error e =>
          constructor
          · left; simp [thumbnailEndpoint, hfs, hmiss, him, hsvg, hr]
          · simp [thumbnailEndpoint, hfs, hmiss, him, hsvg, hr, hmax]
        | ok b =>
          have hs := insertEvict_spec c (thumbKey p s (env.mtime p)) b hfresh
          constructor
          · right
            exact ⟨b, by simp [thumbnailEndpoint, hfs, hmiss, him, hsvg, hr, hs.1]⟩
          · simp only [thumbnailEndpoint, hfs, hmiss, him, hsvg, hr]
            simp [hmiss, hs.2]
    · by_cases hmd : getFileType p = "models"
      · cases hr : generate3DModelThumbnail env p s with
        | error e =>
          constructor
          · left; simp [thumbnailEndpoint, hfs, hmiss, him, hmd, hr]
          · simp [thumbnailEndpoint, hfs, hmiss, him, hmd, hr, hmax]
        | ok b =>
          have hs := insertEvict_spec c (thumbKey p s (env.mtime p)) b hfresh
          constructor
          · right
            exact ⟨b, by simp [thumbnailEndpoint, hfs, hmiss, him, hmd, hr, hs.1]⟩
          · simp only [thumbnailEndpoint, hfs, hmiss, him, hmd, hr]
            simp [hmiss, hs.2]
      · cases hr : env.makeTypeIcon (getFileType p) s with
        | error e =>
          constructor
          · left; simp [thumbnailEndpoint, hfs, hmiss, him, hmd, hr]
          · simp [thumbnailEndpoint, hfs, hmiss, him, hmd, hr, hmax]
        | ok b =>
          have hs := insertEvict_spec c (thumbKey p s (env.mtime p)) b hfresh
          constructor
          · right
            exact ⟨b, by simp [thumbnailEndpoint, hfs, hmiss, him, hmd, hr, hs.1]⟩
          · simp only [thumbnailEndpoint, hfs, hmiss, him, hmd, hr]
            simp [hmiss, hs.2]

/-- C2 amended witness: a thumbnail request on the 100-entry cache
stays within the bound. -/
theorem c2_amended_witness :
    (cacheLookup cache100 (thumbKey ("/f/a.png") 200 (envOk.mtime ("/f/a.png"))) = none)
    ∧ (((thumbnailEndpoint envOk ("/f/a.png") 200 cache100).2 = cache100 ∨
        ∃ b, (thumbnailEndpoint envOk ("/f/a.png") 200 cache100).2 =
          (cache100 ++ [(thumbKey ("/f/a.png") 200 (envOk.mtime ("/f/a.png")), b)]).drop
            (cache100.length + 1 - 100))
      ∧ (thumbnailEndpoint envOk ("/f/a.png") 200 cache100).2.length ≤
          max cache100.length 100) :=
  ⟨by decide,
    c2_amended_thumbnail_bound envOk ("/f/a.png") 200 cache100 (by decide)⟩

/-! ## Queue invariants (claims C4, C5, C7) -/

theorem addLoading_length (id : String) (l : List String) :
    (addLoading id l).length ≤ l.length + 1 := by
  unfold addLoading
  split
  · omega
  · simp

theorem mem_addLoading (id : String) (l : List String) :
    id ∈ addLoading id l := by
  unfold addLoading
  split
  · next h => exact List.elem_iff.mp h
  · simp

theorem stepF_inv (l : QLabel) (s : QState) (h : QInv s) : QInv (stepF l s) := by
  obtain ⟨h1, h2⟩ := h
  cases l with
  | submit r now =>
    simp only [stepF, addRequest]
    split
    · exact ⟨h1, h2.sublist (List.filter_sublist _)⟩
    · exact ⟨h1, stableSort_sorted keepPriority keepPriority_total
        keepPriority_trans _⟩
  | sched =>
    simp only [stepF, schedStep]
    cases hq : s.queue with
    | nil => exact ⟨h1, h2⟩
    | cons r rest =>
      rw [hq] at h2
      by_cases hlt : s.loading.length < 4
      · by_cases hcl : r.containerLive = true
        · simp only [hlt, if_true, hcl]
          refine ⟨?_, h2.of_cons⟩
          calc (addLoading r.id s.loading).length ≤ s.loading.length + 1 :=
                addLoading_length _ _
            _ ≤ 4 := by omega
        · simp only [hlt, if_true, hcl]
          exact ⟨h1, h2.of_cons⟩
      · simp only [hlt, if_false]
        exact ⟨h1, hq ▸ h2⟩
  | cancel id =>
    simp only [stepF, cancelStep]
    split
    · exact ⟨le_trans (List.length_filter_le _ _) h1,
        h2.sublist (List.filter_sublist _)⟩
    · exact ⟨h1, h2.sublist (List.filter_sublist _)⟩
  | buildDone id =>
    simp only [stepF, buildDoneStep]
    split
    · exact ⟨h1, h2⟩
    · exact ⟨h1, h2⟩
  | settle id now =>
    simp only [stepF, settleStep]
    split
    · exact ⟨h1, h2⟩
    · split
      · exact ⟨le_trans (List.length_filter_le _ _) h1, h2⟩
      · exact ⟨le_trans (List.length_filter_le _ _) h1, h2⟩
  | completeError id =>
    simp only [stepF, completeErrorStep]
    split
    · exact ⟨h1, h2⟩
    · exact ⟨le_trans (List.length_filter_le _ _) h1, h2⟩
  | silentFinish id =>
    simp only [stepF, silentFinishStep]
    split
    · exact ⟨le_trans (List.length_filter_le _ _) h1, h2⟩
    · exact ⟨h1, h2⟩
  | sweep now =>
    simp only [stepF, sweepStep]
    exact ⟨h1, h2⟩

theorem runQ_inv (ls : List QLabel) (s : QState) (h : QInv s) :
    QInv (runQ ls s) := by
  induction ls generalizing s with
  | nil => exact h
  | cons l rest ih =>
    simp only [runQ, List.foldl_cons]
    exact ih (stepF l s) (stepF_inv l s h)

theorem initQ_inv : QInv initQ := by
  constructor <;> simp [initQ]

/-! ## Claim C4 -/

/-- C4: over every sequence of queue operations from the initial state,
at most maxConcurrent = 4 load operations are in flight (the guard, the
shift and the add form one synchronous block, so the bound is never
exceeded); and whenever pending requests remain, fewer than 4 loads are
in flight and the front request's container is live, the scheduler step
dequeues exactly that front request - which carries a maximal priority
among all pending requests - marks it in flight and starts it. -/
theorem c4_concurrency_bound (ls : List QLabel) :
    (runQ ls initQ).loading.length ≤ 4
    ∧ ∀ r rest, (runQ ls initQ).queue = r :: rest →
        (runQ ls initQ).loading.length < 4 → r.containerLive = true →
        r.id ∈ (schedStep (runQ ls initQ)).loading
        ∧ (schedStep (runQ ls initQ)).events =
            (runQ ls initQ).events ++ [Ev.started r.id]
        ∧ (schedStep (runQ ls initQ)).queue = rest
        ∧ ∀ x ∈ (runQ ls initQ).queue, x.priority ≤ r.priority := by
  have hinv := runQ_inv ls initQ initQ_inv
  refine ⟨hinv.1, ?_⟩
  intro r rest hq hlt hlive
  have hsorted := hinv.2
  rw [hq] at hsorted
  have hhead := (List.pairwise_cons.mp hsorted).1
  refine ⟨?_, ?_, ?_, ?_⟩
  · simp only [schedStep, hq, hlt, if_true, hlive]
    exact mem_addLoading _ _
  · simp only [schedStep, hq, hlt, if_true, hlive]
  · simp only [schedStep, hq, hlt, if_true, hlive]
  · intro x hx
    rw [hq] at hx
    rcases List.mem_cons.mp hx with hxr | hxrest
    · subst hxr; exact le_refl _
    · have := hhead x hxrest
      simpa [keepPriority, decide_eq_true_eq] using this

/-- C4 witness: after one submission the queue holds that request, no
load is in flight, and the scheduler step starts it. -/
theorem c4_witness :
    ((runQ [QLabel.submit ⟨"a", 5, true⟩ 0] initQ).loading.length ≤ 4)
    ∧ ((runQ [QLabel.submit ⟨"a", 5, true⟩ 0] initQ).queue =
          (⟨"a", 5, true⟩ : Request) :: []
        ∧ (runQ [QLabel.submit ⟨"a", 5, true⟩ 0] initQ).loading.length < 4
        ∧ (⟨"a", 5, true⟩ : Request).containerLive = true)
    ∧ ((⟨"a", 5, true⟩ : Request).id ∈
          (schedStep (runQ [QLabel.submit ⟨"a", 5, true⟩ 0] initQ)).loading
        ∧ (schedStep (runQ [QLabel.submit ⟨"a", 5, true⟩ 0] initQ)).events =
            (runQ [QLabel.submit ⟨"a", 5, true⟩ 0] initQ).events ++
              [Ev.started (⟨"a", 5, true⟩ : Request).id]
        ∧ (schedStep (runQ [QLabel.submit ⟨"a", 5, true⟩ 0] initQ)).queue = []
        ∧ ∀ x ∈ (runQ [QLabel.submit ⟨"a", 5, true⟩ 0] initQ).queue,
            x.priority ≤ (⟨"a", 5, true⟩ : Request).priority) :=
  ⟨(c4_concurrency_bound [QLabel.submit ⟨"a", 5, true⟩ 0]).1,
    ⟨by decide, by decide, by decide⟩,
    (c4_concurrency_bound [QLabel.submit ⟨"a", 5, true⟩ 0]).2
      ⟨"a", 5, true⟩ [] (by decide) (by decide) (by decide)⟩

theorem count_append_ne (evs : List Ev) (e a : Ev) (h : ¬ e = a) :
    (evs ++ [e]).count a = evs.count a := by
  simp [List.count_append, List.count_cons, h]

theorem count_map_disposed (evs : List Ev) (ids : List String) (a : Ev)
    (h : ∀ x, a ≠ Ev.disposed x) :
    (evs ++ ids.map Ev.disposed).count a = evs.count a := by
  rw [List.count_append]
  have hz : (ids.map Ev.disposed).count a = 0 := by
    rw [List.count_eq_zero]
    intro hmem
    obtain ⟨x, _, hx⟩ := List.mem_map.mp hmem
    exact h x hx.symm
  omega

theorem stepF_started (l : QLabel) (s : QState) (id : String)
    (hl : ∀ r now, l = QLabel.submit r now → r.id ≠ id)
    (h : ∀ x ∈ s.queue, x.id ≠ id) :
    (∀ x ∈ (stepF l s).queue, x.id ≠ id)
    ∧ (stepF l s).events.count (Ev.started id) =
        s.events.count (Ev.started id) := by
  cases l with
  | submit r now =>
    have hr : r.id ≠ id := hl r now rfl
    simp only [stepF, addRequest]
    split
    · exact ⟨fun x hx => h x (List.mem_of_mem_filter hx),
        count_append_ne _ _ _ (by simp)⟩
    · refine ⟨?_, rfl⟩
      intro x hx
      have hx2 := (stableSort_perm keepPriority _).subset hx
      rcases List.mem_append.mp hx2 with hx3 | hx4
      · exact h x (List.mem_of_mem_filter hx3)
      · rw [List.mem_singleton.mp hx4]; exact hr
  | sched =>
    cases hqq : s.queue with
    | nil =>
      simp only [stepF, schedStep, hqq]
      exact ⟨hqq ▸ h, trivial⟩
    | cons r rest =>
      have hrid : r.id ≠ id := h r (by rw [hqq]; exact List.mem_cons_self r rest)
      simp only [stepF, schedStep, hqq]
      by_cases hlt : s.loading.length < 4
      · by_cases hcl : r.containerLive = true
        · simp only [hlt, if_true, hcl]
          exact ⟨fun x hx => h x (by rw [hqq]; exact List.mem_cons_of_mem r hx),
            count_append_ne _ _ _ (by simp [hrid])⟩
        · simp only [hlt, if_true, hcl]
          exact ⟨fun x hx => h x (by rw [hqq]; exact List.mem_cons_of_mem r hx), rfl⟩
      · simp only [hlt, if_false]
        exact ⟨hqq ▸ h, trivial⟩
  | cancel j =>
    simp only [stepF, cancelStep]
    split
    · exact ⟨fun x hx => h x (List.mem_of_mem_filter hx), rfl⟩
    · exact ⟨fun x hx => h x (List.mem_of_mem_filter hx), rfl⟩
  | buildDone j =>
    simp only [stepF, buildDoneStep]
    split
    · exact ⟨h, count_append_ne _ _ _ (by simp)⟩
    · exact ⟨h, rfl⟩
  | settle j now =>
    cases hfind : s.flights.find?
        (fun f => decide (f.fid = j ∧ f.stage = Stage.built)) with
    | none =>
      simp only [stepF, settleStep, hfind]
      exact ⟨h, trivial⟩
    | some f =>
      by_cases hab : f.aborted = true
      · simp only [stepF, settleStep, hfind, hab, if_true]
        exact ⟨h, trivial⟩
      · have hab2 : f.aborted = false := by
          cases habf : f.aborted
          · rfl
          · exact absurd habf hab
        simp only [stepF, settleStep, hfind, hab2, Bool.false_eq_true, if_false]
        refine ⟨h, ?_⟩
        rw [count_map_disposed _ _ _ (fun x => by simp)]
        exact count_append_ne _ _ _ (by simp)
  | completeError j =>
    cases hfind : s.flights.find?
        (fun f => decide (f.fid = j ∧ f.stage = Stage.running)) with
    | none =>
      simp only [stepF, completeErrorStep, hfind]
      exact ⟨h, trivial⟩
    | some f =>
      simp only [stepF, completeErrorStep, hfind]
      refine ⟨h, ?_⟩
      by_cases hab : f.aborted = true
      · simp only [hab, if_true]
      · have hab2 : f.aborted = false := by
          cases habf : f.aborted
          · rfl
          · exact absurd habf hab
        simp only [hab2, Bool.false_eq_true, if_false]
        exact count_append_ne _ _ _ (by simp)
  | silentFinish j =>
    simp only [stepF, silentFinishStep]
    split
    · exact ⟨h, rfl⟩
    · exact ⟨h, rfl⟩
  | sweep now =>
    simp only [stepF, sweepStep]
    exact ⟨h, count_map_disposed _ _ _ (fun x => by simp)⟩

theorem runQ_started (ls : List QLabel) (s : QState) (id : String)
    (hls : ∀ r now, QLabel.submit r now ∈ ls → r.id ≠ id)
    (h : ∀ x ∈ s.queue, x.id ≠ id) :
    (∀ x ∈ (runQ ls s).queue, x.id ≠ id)
    ∧ (runQ ls s).events.count (Ev.started id) =
        s.events.count (Ev.started id) := by
  induction ls generalizing s with
  | nil => exact ⟨h, rfl⟩
  | cons l rest ih =>
    have hstep := stepF_started l s id
      (fun r now he => hls r now (by rw [he]; exact List.mem_cons_self _ _)) h
    have hrest := ih (fun r now hm => hls r now (List.mem_cons_of_mem l hm))
      (s := stepF l s) hstep.1
    simp only [runQ, List.foldl_cons]
    exact ⟨hrest.1, hrest.2.trans hstep.2⟩

theorem stepF_prot (l : QLabel) (s : QState) (id : String)
    (hl : ∀ r now, l = QLabel.submit r now → r.id ≠ id)
    (h : QProt id s) :
    QProt id (stepF l s)
    ∧ (stepF l s).events.count (Ev.onLoadCalled id) =
        s.events.count (Ev.onLoadCalled id)
    ∧ (stepF l s).events.count (Ev.onErrorCalled id) =
        s.events.count (Ev.onErrorCalled id)
    ∧ (stepF l s).events.count (Ev.registered id) =
        s.events.count (Ev.registered id) := by
  obtain ⟨hq, hf⟩ := h
  cases l with
  | submit r now =>
    have hr : r.id ≠ id := hl r now rfl
    simp only [stepF, addRequest]
    split
    · exact ⟨⟨fun x hx => hq x (List.mem_of_mem_filter hx), hf⟩,
        count_append_ne _ _ _ (by simp [hr]),
        count_append_ne _ _ _ (by simp),
        count_append_ne _ _ _ (by simp)⟩
    · refine ⟨⟨?_, hf⟩, rfl, rfl, rfl⟩
      intro x hx
      have hx2 := (stableSort_perm keepPriority _).subset hx
      rcases List.mem_append.mp hx2 with hx3 | hx4
      · exact hq x (List.mem_of_mem_filter hx3)
      · rw [List.mem_singleton.mp hx4]; exact hr
  | sched =>
    cases hqq : s.queue with
    | nil =>
      simp only [stepF, schedStep, hqq]
      exact ⟨⟨hqq ▸ hq, hf⟩, trivial, trivial, trivial⟩
    | cons r rest =>
      have hrid : r.id ≠ id := hq r (by rw [hqq]; exact List.mem_cons_self r rest)
      simp only [stepF, schedStep, hqq]
      by_cases hlt : s.loading.length < 4
      · by_cases hcl : r.containerLive = true
        · simp only [hlt, if_true, hcl]
          refine ⟨⟨?_, ?_⟩, count_append_ne _ _ _ (by simp),
            count_append_ne _ _ _ (by simp), count_append_ne _ _ _ (by simp)⟩
          · intro x hx
            exact hq x (by rw [hqq]; exact List.mem_cons_of_mem r hx)
          · intro f hfm hfid
            rcases List.mem_cons.mp hfm with hfe | hfs2
            · exfalso
              apply hrid
              rw [hfe] at hfid
              exact hfid
            · exact hf f hfs2 hfid
        · simp only [hlt, if_true, hcl]
          refine ⟨⟨fun x hx => hq x (by rw [hqq]; exact List.mem_cons_of_mem r hx),
            hf⟩, ?_, ?_, ?_⟩ <;> first | rfl | trivial
      · simp only [hlt, if_false]
        refine ⟨⟨hqq ▸ hq, hf⟩, ?_, ?_, ?_⟩ <;> first | rfl | trivial
  | cancel j =>
    simp only [stepF, cancelStep]
    split
    · refine ⟨⟨fun x hx => hq x (List.mem_of_mem_filter hx), ?_⟩,
        ?asdf1, ?asdf2, ?asdf3⟩
      case asdf1 => first | rfl | trivial
      case asdf2 => first | rfl | trivial
      case asdf3 => first | rfl | trivial
      intro f hfm hfid
      obtain ⟨g, hg, hge⟩ := List.mem_map.mp hfm
      by_cases hgj : g.fid = j
      · rw [← hge]
        simp [hgj]
      · have hgid : g.fid = id := by
          rw [← hge] at hfid
          simpa [hgj] using hfid
        rw [← hge]
        simp only [hgj, if_false]
        exact hf g hg hgid
    · refine ⟨⟨fun x hx => hq x (List.mem_of_mem_filter hx), hf⟩,
        ?_, ?_, ?_⟩ <;> first | rfl | trivial
  | buildDone j =>
    by_cases hj : j = id
    · subst hj
      have hfalse : s.flights.any (fun f =>
          decide (f.fid = j ∧ f.aborted = false ∧ f.stage = Stage.running)) = false := by
        rw [List.any_eq_false]
        intro f hfm
        rw [decide_eq_true_eq]
        rintro ⟨h1, h2, _⟩
        rw [hf f hfm h1] at h2
        cases h2
      simp only [stepF, buildDoneStep, hfalse, Bool.false_eq_true, if_false]
      refine ⟨⟨hq, hf⟩, ?_, ?_, ?_⟩ <;> first | rfl | trivial
    · simp only [stepF, buildDoneStep]
      split
      · refine ⟨⟨hq, ?_⟩, count_append_ne _ _ _ (by simp [hj]),
          count_append_ne _ _ _ (by simp), count_append_ne _ _ _ (by simp)⟩
        intro f hfm hfid
        obtain ⟨g, hg, hge⟩ := List.mem_map.mp hfm
        have hfa : f.aborted = g.aborted := by
          rw [← hge]
          split <;> rfl
        have hgid : g.fid = id := by
          have hff : f.fid = g.fid := by
            rw [← hge]
            split <;> rfl
          rw [← hff]
          exact hfid
        rw [hfa]
        exact hf g hg hgid
      · refine ⟨⟨hq, hf⟩, ?_, ?_, ?_⟩ <;> first | rfl | trivial
  | settle j now =>
    cases hfind : s.flights.find?
        (fun f => decide (f.fid = j ∧ f.stage = Stage.built)) with
    | none =>
      simp only [stepF, settleStep, hfind]
      exact ⟨⟨hq, hf⟩, trivial, trivial, trivial⟩
    | some f =>
      have hfmem := List.mem_of_find?_eq_some hfind
      have hpred := List.find?_some hfind
      rw [decide_eq_true_eq] at hpred
      by_cases hab : f.aborted = true
      · simp only [stepF, settleStep, hfind, hab, if_true]
        exact ⟨⟨hq, fun g hg => hf g ((List.eraseP_sublist _).subset hg)⟩,
          trivial, trivial, trivial⟩
      · have hab2 : f.aborted = false := by
          cases habf : f.aborted
          · rfl
          · exact absurd habf hab
        have hj : ¬ j = id := by
          intro hje
          exact hab (hf f hfmem (hpred.1.trans hje))
        simp only [stepF, settleStep, hfind, hab2, Bool.false_eq_true, if_false]
        refine ⟨⟨hq, fun g hg => hf g ((List.eraseP_sublist _).subset hg)⟩,
          ?_, ?_, ?_⟩
        · rw [count_map_disposed _ _ _ (fun x => by simp)]
          exact count_append_ne _ _ _ (by simp)
        · rw [count_map_disposed _ _ _ (fun x => by simp)]
          exact count_append_ne _ _ _ (by simp)
        · rw [count_map_disposed _ _ _ (fun x => by simp)]
          exact count_append_ne _ _ _ (by simp [hj])
  | completeError j =>
    cases hfind : s.flights.find?
        (fun f => decide (f.fid = j ∧ f.stage = Stage.running)) with
    | none =>
      simp only [stepF, completeErrorStep, hfind]
      exact ⟨⟨hq, hf⟩, trivial, trivial, trivial⟩
    | some f =>
      have hfmem := List.mem_of_find?_eq_some hfind
      have hpred := List.find?_some hfind
      rw [decide_eq_true_eq] at hpred
      simp only [stepF, completeErrorStep, hfind]
      refine ⟨⟨hq, fun g hg => hf g ((List.eraseP_sublist _).subset hg)⟩,
        ?_, ?_, ?_⟩
      all_goals by_cases hab : f.aborted = true
      · simp only [hab, if_true]
      · have hab2 : f.aborted = false := by
          cases habf : f.aborted
          · rfl
          · exact absurd habf hab
        simp only [hab2, Bool.false_eq_true, if_false]
        exact count_append_ne _ _ _ (by simp)
      · simp only [hab, if_true]
      · have hab2 : f.aborted = false := by
          cases habf : f.aborted
          · rfl
          · exact absurd habf hab
        have hj : ¬ j = id := by
          intro hje
          exact hab (hf f hfmem (hpred.1.trans hje))
        simp only [hab2, Bool.false_eq_true, if_false]
        exact count_append_ne _ _ _ (by simp [hj])
      · simp only [hab, if_true]
      · have hab2 : f.aborted = false := by
          cases habf : f.aborted
          · rfl
          · exact absurd habf hab
        simp only [hab2, Bool.false_eq_true, if_false]
        exact count_append_ne _ _ _ (by simp)
  | silentFinish j =>
    simp only [stepF, silentFinishStep]
    split
    · refine ⟨⟨hq, fun g hg => hf g ((List.eraseP_sublist _).subset hg)⟩,
        ?_, ?_, ?_⟩ <;> first | rfl | trivial
    · refine ⟨⟨hq, hf⟩, ?_, ?_, ?_⟩ <;> first | rfl | trivial
  | sweep now =>
    simp only [stepF, sweepStep]
    exact ⟨⟨hq, hf⟩,
      count_map_disposed _ _ _ (fun x => by simp),
      count_map_disposed _ _ _ (fun x => by simp),
      count_map_disposed _ _ _ (fun x => by simp)⟩

theorem runQ_prot (ls : List QLabel) (s : QState) (id : String)
    (hls : ∀ r now, QLabel.submit r now ∈ ls → r.id ≠ id)
    (h : QProt id s) :
    QProt id (runQ ls s)
    ∧ (runQ ls s).events.count (Ev.onLoadCalled id) =
        s.events.count (Ev.onLoadCalled id)
    ∧ (runQ ls s).events.count (Ev.onErrorCalled id) =
        s.events.count (Ev.onErrorCalled id)
    ∧ (runQ ls s).events.count (Ev.registered id) =
        s.events.count (Ev.registered id) := by
  induction ls generalizing s with
  | nil => exact ⟨h, rfl, rfl, rfl⟩
  | cons l rest ih =>
    have hstep := stepF_prot l s id
      (fun r now he => hls r now (by rw [he]; exact List.mem_cons_self _ _)) h
    have hrest := ih (fun r now hm => hls r now (List.mem_cons_of_mem l hm))
      (s := stepF l s) hstep.1
    simp only [runQ, List.foldl_cons]
    exact ⟨hrest.1, hrest.2.1.trans hstep.2.1, hrest.2.2.1.trans hstep.2.2.1,
      hrest.2.2.2.trans hstep.2.2.2⟩

/-! ## Claim C5 -/

/-- C5: removeRequest of id removes it from the pending queue, so its
load never starts in any continuation that does not resubmit the id
(no new started event); the loading slot is freed; and when the id was
in flight, the abort signal of its operation is raised and no
onLoad / onError callback and no handle registration for the id occurs
in any such continuation (the guards at each suspension point check the
signal before invoking a callback or registering). -/
theorem c5_cancel_no_callbacks (s : QState) (id : String) (ls : List QLabel)
    (hls : ∀ r now, QLabel.submit r now ∈ ls → r.id ≠ id) :
    (∀ x ∈ (stepF (QLabel.cancel id) s).queue, x.id ≠ id)
    ∧ (stepF (QLabel.cancel id) s).loading.contains id = false
    ∧ (s.loading.contains id = true →
        ∀ f ∈ (stepF (QLabel.cancel id) s).flights, f.fid = id → f.aborted = true)
    ∧ (runQ ls (stepF (QLabel.cancel id) s)).events.count (Ev.started id) =
        (stepF (QLabel.cancel id) s).events.count (Ev.started id)
    ∧ (s.loading.contains id = true →
        (runQ ls (stepF (QLabel.cancel id) s)).events.count (Ev.onLoadCalled id) =
            (stepF (QLabel.cancel id) s).events.count (Ev.onLoadCalled id)
        ∧ (runQ ls (stepF (QLabel.cancel id) s)).events.count (Ev.onErrorCalled id) =
            (stepF (QLabel.cancel id) s).events.count (Ev.onErrorCalled id)
        ∧ (runQ ls (stepF (QLabel.cancel id) s)).events.count (Ev.registered id) =
            (stepF (QLabel.cancel id) s).events.count (Ev.registered id)) := by
  have hnq : ∀ x ∈ (stepF (QLabel.cancel id) s).queue, x.id ≠ id := by
    simp only [stepF, cancelStep]
    split
    · intro x hx
      have := List.of_mem_filter hx
      simpa using this
    · intro x hx
      have := List.of_mem_filter hx
      simpa using this
  have habort : s.loading.contains id = true →
      ∀ f ∈ (stepF (QLabel.cancel id) s).flights, f.fid = id → f.aborted = true := by
    intro hld f hfm hfid
    simp only [stepF, cancelStep, hld, if_true] at hfm
    obtain ⟨g, hg, hge⟩ := List.mem_map.mp hfm
    by_cases hgj : g.fid = id
    · rw [← hge]
      simp [hgj]
    · exfalso
      apply hgj
      rw [← hge] at hfid
      simpa [hgj] using hfid
  refine ⟨hnq, ?_, habort, ?_, ?_⟩
  · simp only [stepF, cancelStep]
    split
    · next hld =>
      rw [List.contains_eq_any_beq]
      rw [List.any_eq_false]
      intro x hx
      have := List.of_mem_filter hx
      simp only [decide_eq_true_eq] at this
      simp only [beq_iff_eq]
      exact Ne.symm this
    · next hld =>
      simpa using hld
  · exact (runQ_started ls _ id hls hnq).2
  · intro hld
    have hprot : QProt id (stepF (QLabel.cancel id) s) := ⟨hnq, habort hld⟩
    have := runQ_prot ls _ id hls hprot
    exact ⟨this.2.1, this.2.2.1, this.2.2.2⟩

/-- C5 witness: a request is submitted and started, then cancelled in
flight; the continuation settles and reschedules without resubmitting
the id. -/
theorem c5_witness :
    ((∀ r now, QLabel.submit r now ∈
        ([QLabel.settle ("w") 3, QLabel.sched] : List QLabel) → r.id ≠ "w")
      ∧ (runQ [QLabel.submit ⟨"w", 1, true⟩ 0, QLabel.sched] initQ).loading.contains
          ("w") = true)
    ∧ ((∀ x ∈ (stepF (QLabel.cancel ("w"))
          (runQ [QLabel.submit ⟨"w", 1, true⟩ 0, QLabel.sched] initQ)).queue,
            x.id ≠ "w")
      ∧ (stepF (QLabel.cancel ("w"))
          (runQ [QLabel.submit ⟨"w", 1, true⟩ 0, QLabel.sched] initQ)).loading.contains
            ("w") = false
      ∧ ((runQ [QLabel.submit ⟨"w", 1, true⟩ 0, QLabel.sched] initQ).loading.contains
            ("w") = true →
          ∀ f ∈ (stepF (QLabel.cancel ("w"))
            (runQ [QLabel.submit ⟨"w", 1, true⟩ 0, QLabel.sched] initQ)).flights,
              f.fid = "w" → f.aborted = true)
      ∧ (runQ [QLabel.settle ("w") 3, QLabel.sched]
            (stepF (QLabel.cancel ("w"))
              (runQ [QLabel.submit ⟨"w", 1, true⟩ 0, QLabel.sched] initQ))).events.count
            (Ev.started ("w")) =
          (stepF (QLabel.cancel ("w"))
            (runQ [QLabel.submit ⟨"w", 1, true⟩ 0, QLabel.sched] initQ)).events.count
            (Ev.started ("w"))
      ∧ ((runQ [QLabel.submit ⟨"w", 1, true⟩ 0, QLabel.sched] initQ).loading.contains
            ("w") = true →
          (runQ [QLabel.settle ("w") 3, QLabel.sched]
              (stepF (QLabel.cancel ("w"))
                (runQ [QLabel.submit ⟨"w", 1, true⟩ 0, QLabel.sched] initQ))).events.count
              (Ev.onLoadCalled ("w")) =
            (stepF (QLabel.cancel ("w"))
              (runQ [QLabel.submit ⟨"w", 1, true⟩ 0, QLabel.sched] initQ)).events.count
              (Ev.onLoadCalled ("w"))
          ∧ (runQ [QLabel.settle ("w") 3, QLabel.sched]
              (stepF (QLabel.cancel ("w"))
                (runQ [QLabel.submit ⟨"w", 1, true⟩ 0, QLabel.sched] initQ))).events.count
              (Ev.onErrorCalled ("w")) =
            (stepF (QLabel.cancel ("w"))
              (runQ [QLabel.submit ⟨"w", 1, true⟩ 0, QLabel.sched] initQ)).events.count
              (Ev.onErrorCalled ("w"))
          ∧ (runQ [QLabel.settle ("w") 3, QLabel.sched]
              (stepF (QLabel.cancel ("w"))
                (runQ [QLabel.submit ⟨"w", 1, true⟩ 0, QLabel.sched] initQ))).events.count
              (Ev.registered ("w")) =
            (stepF (QLabel.cancel ("w"))
              (runQ [QLabel.submit ⟨"w", 1, true⟩ 0, QLabel.sched] initQ)).events.count
              (Ev.registered ("w")))) :=
  ⟨⟨by intro r now hm; simp at hm, by decide⟩,
    c5_cancel_no_callbacks
      (runQ [QLabel.submit ⟨"w", 1, true⟩ 0, QLabel.sched] initQ) ("w")
      [QLabel.settle ("w") 3, QLabel.sched] (by intro r now hm; simp at hm)⟩

/-! ## Claim C7 -/

/-- C7: when the cancellation arrives after the load operation passed
its last abort check (its success callback, which ends in onLoad, has
already run), the claim says the completed result is still disposed.
In the code the settle block drops the result without registering it
and without any disposal call: after the raced trace the handle map is
empty, no disposed event was emitted, and a later sweep cannot dispose
what was never registered - the scene and renderer leak. -/
theorem c7_raced_cancel_leak :
    (runQ traceC7 initQ).events = [Ev.started ("m1"), Ev.onLoadCalled ("m1")]
    ∧ (runQ traceC7 initQ).loadedModels = []
    ∧ (runQ traceC7 initQ).flights = []
    ∧ (runQ traceC7 initQ).loading = []
    ∧ (runQ traceC7 initQ).events.count (Ev.disposed ("m1")) = 0
    ∧ (runQ (traceC7 ++ [QLabel.sweep 10000000]) initQ).events.count
        (Ev.disposed ("m1")) = 0 := by
  refine ⟨by decide, by decide, by decide, by decide, by decide, by decide⟩
